import Mathlib

/-!
Verification development for the asx-visualizer screening engine.

The screening engine is embedded shallowly:
TypeScript numbers are modelled as rationals (all constants appearing in the
claims are exactly representable, and the comparisons involved behave
identically on IEEE doubles and on the rationals), nullable values as
`Option`, and records as structures restricted to the fields the screening
logic reads.

Embedded source functions:
* `applyFilters` and `FilterCriteria` from
  frontend/src/components/screener/FilterPanel.tsx
* `updateFilter` (the sector-cascade branch) from the same file
* `getRatingLabel` from the shared types module
* the column registry (ids, `enableHiding` flags, `defaultVisibleColumns`)
  and the All / None visibility actions from ColumnToggle.tsx

The sort comparator and the pagination deriver are implemented by the
third-party table library and are not part of the repository; they are
modelled from the specification (sections 4.3 and 4.4) and marked as such.
-/

namespace ASX

/-- One screenable instrument, restricted to the attributes the filter
evaluator reads (interface `Stock`; numeric metrics are nullable,
`sector` and `industry` are nullable strings). -/
structure Stock where
  symbol : String
  sector : Option String
  industry : Option String
  market_cap_basic : Option ℚ
  RSI : Option ℚ
  change : Option ℚ
  deriving Repr, DecidableEq

/-- The filter-criteria record (`FilterCriteria` in FilterPanel.tsx):
a categorical selector for sector and industry with the sentinel "Any",
and an optional (min, max) bound pair for each numeric attribute. -/
structure FilterCriteria where
  sector : String
  industry : String
  marketCapMin : Option ℚ
  marketCapMax : Option ℚ
  rsiMin : Option ℚ
  rsiMax : Option ℚ
  changeMin : Option ℚ
  changeMax : Option ℚ
  deriving Repr, DecidableEq

/-- The all-inactive criteria (`defaultFilters` in FilterPanel.tsx). -/
def defaultFilters : FilterCriteria :=
  { sector := "Any", industry := "Any",
    marketCapMin := none, marketCapMax := none,
    rsiMin := none, rsiMax := none,
    changeMin := none, changeMax := none }

/-- The market-cap minimum guard of `applyFilters`: the min check fires only
when both the bound and the record value are non-null, and the bound entered
in billions is scaled by 10^9. -/
def mcMinFails (filters : FilterCriteria) (stock : Stock) : Bool :=
  match filters.marketCapMin, stock.market_cap_basic with
  | some lo, some m => decide (m < lo * 1000000000)
  | _, _ => false

/-- The market-cap maximum guard of `applyFilters`. -/
def mcMaxFails (filters : FilterCriteria) (stock : Stock) : Bool :=
  match filters.marketCapMax, stock.market_cap_basic with
  | some hi, some m => decide (hi * 1000000000 < m)
  | _, _ => false

/-- The RSI minimum guard of `applyFilters` (unscaled). -/
def rsiMinFails (filters : FilterCriteria) (stock : Stock) : Bool :=
  match filters.rsiMin, stock.RSI with
  | some lo, some v => decide (v < lo)
  | _, _ => false

/-- The RSI maximum guard of `applyFilters` (unscaled). -/
def rsiMaxFails (filters : FilterCriteria) (stock : Stock) : Bool :=
  match filters.rsiMax, stock.RSI with
  | some hi, some v => decide (hi < v)
  | _, _ => false

/-- The change-percent minimum guard of `applyFilters` (unscaled). -/
def changeMinFails (filters : FilterCriteria) (stock : Stock) : Bool :=
  match filters.changeMin, stock.change with
  | some lo, some v => decide (v < lo)
  | _, _ => false

/-- The change-percent maximum guard of `applyFilters` (unscaled). -/
def changeMaxFails (filters : FilterCriteria) (stock : Stock) : Bool :=
  match filters.changeMax, stock.change with
  | some hi, some v => decide (hi < v)
  | _, _ => false

/-- The per-record predicate inside `applyFilters` (FilterPanel.tsx,
lines 374-427), translated guard by guard in source order: each early
`return false` becomes one `if` branch. -/
def matchesStock (filters : FilterCriteria) (stock : Stock) : Bool :=
  if filters.sector ≠ "Any" ∧ stock.sector ≠ some filters.sector then false
  else if filters.industry ≠ "Any" ∧ stock.industry ≠ some filters.industry then false
  else if mcMinFails filters stock then false
  else if mcMaxFails filters stock then false
  else if rsiMinFails filters stock then false
  else if rsiMaxFails filters stock then false
  else if changeMinFails filters stock then false
  else if changeMaxFails filters stock then false
  else true

/-- `applyFilters(data, filters)` = `data.filter(stock => ...)`. -/
def applyFilters (data : List Stock) (filters : FilterCriteria) : List Stock :=
  data.filter (fun stock => matchesStock filters stock)

/-! Specification-side decomposition of the filter into the five
independent per-field predicates of section 4.2, to be compared with the
source translation `matchesStock`. -/

/-- Spec predicate: the sector criterion passes. -/
def sectorPass (filters : FilterCriteria) (stock : Stock) : Bool :=
  decide (filters.sector = "Any" ∨ stock.sector = some filters.sector)

/-- Spec predicate: the industry criterion passes. -/
def industryPass (filters : FilterCriteria) (stock : Stock) : Bool :=
  decide (filters.industry = "Any" ∨ stock.industry = some filters.industry)

/-- Spec predicate: a numeric range passes; a null record value passes
vacuously, each bound is checked only when present. -/
def rangePass (lo hi : Option ℚ) (v : Option ℚ) : Bool :=
  match v with
  | none => true
  | some x =>
      (match lo with | none => true | some a => decide (a ≤ x)) &&
      (match hi with | none => true | some b => decide (x ≤ b))

/-- Spec predicate: the market-cap range passes (bounds in billions). -/
def marketCapPass (filters : FilterCriteria) (stock : Stock) : Bool :=
  rangePass (filters.marketCapMin.map (· * 1000000000))
    (filters.marketCapMax.map (· * 1000000000)) stock.market_cap_basic

/-- Spec predicate: the RSI range passes. -/
def rsiPass (filters : FilterCriteria) (stock : Stock) : Bool :=
  rangePass filters.rsiMin filters.rsiMax stock.RSI

/-- Spec predicate: the change-percent range passes. -/
def changePass (filters : FilterCriteria) (stock : Stock) : Bool :=
  rangePass filters.changeMin filters.changeMax stock.change

/-- The five ordered rating labels (`TechnicalRating`). -/
inductive TechnicalRating where
  | strongBuy
  | buy
  | neutral
  | sell
  | strongSell
  deriving Repr, DecidableEq

/-- `getRatingLabel` from the shared types module: null gives no label,
otherwise the first of the chained `rating >= threshold` tests decides. -/
def getRatingLabel (rating : Option ℚ) : Option TechnicalRating :=
  match rating with
  | none => none
  | some r =>
      if (0.5 : ℚ) ≤ r then some .strongBuy
      else if (0.1 : ℚ) ≤ r then some .buy
      else if (-0.1 : ℚ) ≤ r then some .neutral
      else if (-0.5 : ℚ) ≤ r then some .sell
      else some .strongSell

/-- One keyed filter edit, as dispatched by `updateFilter(key, value)` in
FilterPanel.tsx. -/
inductive FilterUpdate where
  | sector (v : String)
  | industry (v : String)
  | marketCapMin (v : Option ℚ)
  | marketCapMax (v : Option ℚ)
  | rsiMin (v : Option ℚ)
  | rsiMax (v : Option ℚ)
  | changeMin (v : Option ℚ)
  | changeMax (v : Option ℚ)

/-- `updateFilter` (FilterPanel.tsx, lines 71-81): spread the old criteria
with the edited key; when the key is `sector` and the value differs from the
current sector, also reset `industry` to "Any" in the same new object. -/
def updateFilter (filters : FilterCriteria) (u : FilterUpdate) : FilterCriteria :=
  match u with
  | .sector v =>
      if v ≠ filters.sector then { filters with sector := v, industry := "Any" }
      else { filters with sector := v }
  | .industry v => { filters with industry := v }
  | .marketCapMin v => { filters with marketCapMin := v }
  | .marketCapMax v => { filters with marketCapMax := v }
  | .rsiMin v => { filters with rsiMin := v }
  | .rsiMax v => { filters with rsiMax := v }
  | .changeMin v => { filters with changeMin := v }
  | .changeMax v => { filters with changeMax := v }

/-! Helper lemmas relating the source translation to the spec-side
per-field decomposition. -/

/-- The market-cap range predicate is the conjunction of the negated min
and max guards of the source. -/
lemma marketCapPass_eq (f : FilterCriteria) (s : Stock) :
    marketCapPass f s = (!mcMinFails f s && !mcMaxFails f s) := by
  unfold marketCapPass rangePass mcMinFails mcMaxFails
  cases hlo : f.marketCapMin <;> cases hhi : f.marketCapMax <;>
    cases hv : s.market_cap_basic <;>
      simp [← decide_not, decide_eq_decide, not_lt]

/-- The RSI range predicate is the conjunction of the negated min and max
guards of the source. -/
lemma rsiPass_eq (f : FilterCriteria) (s : Stock) :
    rsiPass f s = (!rsiMinFails f s && !rsiMaxFails f s) := by
  unfold rsiPass rangePass rsiMinFails rsiMaxFails
  cases hlo : f.rsiMin <;> cases hhi : f.rsiMax <;> cases hv : s.RSI <;>
    simp [← decide_not, decide_eq_decide, not_lt]

/-- The change-percent range predicate is the conjunction of the negated
min and max guards of the source. -/
lemma changePass_eq (f : FilterCriteria) (s : Stock) :
    changePass f s = (!changeMinFails f s && !changeMaxFails f s) := by
  unfold changePass rangePass changeMinFails changeMaxFails
  cases hlo : f.changeMin <;> cases hhi : f.changeMax <;> cases hv : s.change <;>
    simp [← decide_not, decide_eq_decide, not_lt]

/-- The source predicate of `applyFilters` is exactly the conjunction of
the five spec-side per-field predicates. -/
lemma matchesStock_eq (f : FilterCriteria) (s : Stock) :
    matchesStock f s =
      (sectorPass f s && industryPass f s && marketCapPass f s &&
        rsiPass f s && changePass f s) := by
  unfold matchesStock
  rw [marketCapPass_eq, rsiPass_eq, changePass_eq]
  split_ifs with h1 h2 h3 h4 h5 h6 h7 h8 <;>
    simp_all [sectorPass, industryPass, not_and_or, not_not, or_iff_not_imp_left]

/-- Strengthening relation on criteria: the second set equals the first
except that some constraints changed from inactive ("Any" / null) to
active values. -/
def StricterThan (c2 c1 : FilterCriteria) : Prop :=
  (c2.sector = c1.sector ∨ c1.sector = "Any") ∧
  (c2.industry = c1.industry ∨ c1.industry = "Any") ∧
  (c2.marketCapMin = c1.marketCapMin ∨ c1.marketCapMin = none) ∧
  (c2.marketCapMax = c1.marketCapMax ∨ c1.marketCapMax = none) ∧
  (c2.rsiMin = c1.rsiMin ∨ c1.rsiMin = none) ∧
  (c2.rsiMax = c1.rsiMax ∨ c1.rsiMax = none) ∧
  (c2.changeMin = c1.changeMin ∨ c1.changeMin = none) ∧
  (c2.changeMax = c1.changeMax ∨ c1.changeMax = none)

/-- A range predicate only gets weaker when a bound is dropped. -/
lemma rangePass_mono {lo1 lo2 hi1 hi2 v : Option ℚ}
    (hlo : lo2 = lo1 ∨ lo1 = none) (hhi : hi2 = hi1 ∨ hi1 = none)
    (h : rangePass lo2 hi2 v = true) : rangePass lo1 hi1 v = true := by
  cases v with
  | none => rfl
  | some x =>
      unfold rangePass at h ⊢
      rw [Bool.and_eq_true] at h ⊢
      constructor
      · rcases hlo with h1 | h1
        · rw [← h1]; exact h.1
        · rw [h1]
      · rcases hhi with h1 | h1
        · rw [← h1]; exact h.2
        · rw [h1]

/-- Pointwise monotonicity: a record matching the stricter criteria also
matches the weaker ones. -/
lemma matchesStock_mono {c1 c2 : FilterCriteria} (h : StricterThan c2 c1)
    (s : Stock) (hm : matchesStock c2 s = true) : matchesStock c1 s = true := by
  obtain ⟨hs, hi, h1, h2, h3, h4, h5, h6⟩ := h
  rw [matchesStock_eq] at hm ⊢
  simp only [Bool.and_eq_true] at hm ⊢
  obtain ⟨⟨⟨⟨hsec, hind⟩, hmc⟩, hrsi⟩, hchg⟩ := hm
  refine ⟨⟨⟨⟨?_, ?_⟩, ?_⟩, ?_⟩, ?_⟩
  · unfold sectorPass at hsec ⊢
    rw [decide_eq_true_eq] at hsec ⊢
    rcases hs with h' | h'
    · rw [← h']; exact hsec
    · exact Or.inl h'
  · unfold industryPass at hind ⊢
    rw [decide_eq_true_eq] at hind ⊢
    rcases hi with h' | h'
    · rw [← h']; exact hind
    · exact Or.inl h'
  · unfold marketCapPass at hmc ⊢
    refine rangePass_mono ?_ ?_ hmc
    · rcases h1 with h' | h' <;> simp [h']
    · rcases h2 with h' | h' <;> simp [h']
  · exact rangePass_mono h3 h4 hrsi
  · exact rangePass_mono h5 h6 hchg

/-- C4: activating additional constraints can only shrink the filtered
result: if `c2` is stricter than `c1` (equal criteria except that some
constraints went from "Any"/null to active values), the output of
`applyFilters` under `c2` is no longer than under `c1`. -/
theorem filter_monotone (data : List Stock) (c1 c2 : FilterCriteria)
    (h : StricterThan c2 c1) :
    (applyFilters data c2).length ≤ (applyFilters data c1).length := by
  unfold applyFilters
  rw [← List.countP_eq_length_filter, ← List.countP_eq_length_filter]
  exact List.countP_mono_left (fun s _ hs => matchesStock_mono h s hs)

/-- Concrete instantiation of `filter_monotone`: adding an RSI lower bound
to the default criteria does not enlarge the result on a two-stock list. -/
theorem filter_monotone_witness :
    (applyFilters
        [{ symbol := "ASX:AAA", sector := some "Tech", industry := some "Software",
           market_cap_basic := none, RSI := some 75, change := some 3 },
         { symbol := "ASX:BBB", sector := some "Tech", industry := some "Software",
           market_cap_basic := some 5000000000, RSI := some 20, change := some (-1) }]
        { defaultFilters with rsiMin := some 70 }).length ≤
      (applyFilters
        [{ symbol := "ASX:AAA", sector := some "Tech", industry := some "Software",
           market_cap_basic := none, RSI := some 75, change := some 3 },
         { symbol := "ASX:BBB", sector := some "Tech", industry := some "Software",
           market_cap_basic := some 5000000000, RSI := some 20, change := some (-1) }]
        defaultFilters).length :=
  filter_monotone _ defaultFilters { defaultFilters with rsiMin := some 70 }
    (by refine ⟨Or.inl rfl, Or.inl rfl, ?_, ?_, ?_, ?_, ?_, ?_⟩ <;> simp [defaultFilters])

/-- C5: `applyFilters` keeps exactly the records satisfying the conjunction
of the five per-field predicates, as an order-preserving subsequence of its
input: the predicate is the conjunction of sector equality, industry
equality and the three range predicates, the output is a sublist of the
input, and membership in the output is membership in the input plus the
predicate. -/
theorem filter_conjunction_ordered (data : List Stock) (f : FilterCriteria) :
    (∀ s, matchesStock f s =
      (sectorPass f s && industryPass f s && marketCapPass f s &&
        rsiPass f s && changePass f s)) ∧
    List.Sublist (applyFilters data f) data ∧
    (∀ s, s ∈ applyFilters data f ↔ s ∈ data ∧ matchesStock f s = true) := by
  refine ⟨fun s => matchesStock_eq f s, List.filter_sublist data, fun s => ?_⟩
  simp [applyFilters, List.mem_filter]

/-- C1: null pass-through. A null record value for a filterable numeric
attribute passes that attribute's range predicate for every bound
combination, and a record with such a null value matches whenever the other
four predicates are satisfied. -/
theorem null_passthrough (f : FilterCriteria) (s : Stock) :
    (s.market_cap_basic = none → marketCapPass f s = true) ∧
    (s.RSI = none → rsiPass f s = true) ∧
    (s.change = none → changePass f s = true) ∧
    (s.market_cap_basic = none →
      sectorPass f s = true → industryPass f s = true →
      rsiPass f s = true → changePass f s = true → matchesStock f s = true) ∧
    (s.RSI = none →
      sectorPass f s = true → industryPass f s = true →
      marketCapPass f s = true → changePass f s = true → matchesStock f s = true) ∧
    (s.change = none →
      sectorPass f s = true → industryPass f s = true →
      marketCapPass f s = true → rsiPass f s = true → matchesStock f s = true) := by
  have hmc : s.market_cap_basic = none → marketCapPass f s = true := by
    intro h; unfold marketCapPass rangePass; rw [h]
  have hrsi : s.RSI = none → rsiPass f s = true := by
    intro h; unfold rsiPass rangePass; rw [h]
  have hchg : s.change = none → changePass f s = true := by
    intro h; unfold changePass rangePass; rw [h]
  refine ⟨hmc, hrsi, hchg, ?_, ?_, ?_⟩ <;>
    · intro h h1 h2 h3 h4
      rw [matchesStock_eq]
      simp_all

/-- Concrete instantiation of `null_passthrough`: a stock with null market
cap matches criteria demanding a minimum market cap, the other criteria
being satisfied. -/
theorem null_passthrough_witness :
    matchesStock { defaultFilters with marketCapMin := some 10 }
      { symbol := "ASX:AAA", sector := some "Tech", industry := some "Software",
        market_cap_basic := none, RSI := some 75, change := some 3 } = true :=
  (null_passthrough { defaultFilters with marketCapMin := some 10 }
      { symbol := "ASX:AAA", sector := some "Tech", industry := some "Software",
        market_cap_basic := none, RSI := some 75, change := some 3 }).2.2.2.1
    rfl (by decide) (by decide) (by decide) (by decide)

/-- C10: unit interpretation of the bounds. With a non-null record value,
the market-cap guards compare against the bound scaled by 10^9 (bounds are
entered in billions), while the RSI and change-percent guards compare the
raw values without scaling. -/
theorem bound_scaling (f : FilterCriteria) (s : Stock) (lo hi m v : ℚ) :
    (f.marketCapMin = some lo → s.market_cap_basic = some m →
      (mcMinFails f s = false ↔ lo * 1000000000 ≤ m)) ∧
    (f.marketCapMax = some hi → s.market_cap_basic = some m →
      (mcMaxFails f s = false ↔ m ≤ hi * 1000000000)) ∧
    (f.rsiMin = some lo → s.RSI = some v → (rsiMinFails f s = false ↔ lo ≤ v)) ∧
    (f.rsiMax = some hi → s.RSI = some v → (rsiMaxFails f s = false ↔ v ≤ hi)) ∧
    (f.changeMin = some lo → s.change = some v →
      (changeMinFails f s = false ↔ lo ≤ v)) ∧
    (f.changeMax = some hi → s.change = some v →
      (changeMaxFails f s = false ↔ v ≤ hi)) := by
  refine ⟨?_, ?_, ?_, ?_, ?_, ?_⟩ <;>
    · intro h1 h2
      simp [mcMinFails, mcMaxFails, rsiMinFails, rsiMaxFails,
        changeMinFails, changeMaxFails, h1, h2, not_lt]

/-- Concrete instantiation of `bound_scaling`: a 2 billion market cap fails
a minimum bound of 10 (billions) because 2·10^9 < 10·10^9. -/
theorem bound_scaling_witness :
    ¬ (mcMinFails { defaultFilters with marketCapMin := some 10 }
      { symbol := "ASX:CCC", sector := some "Energy", industry := none,
        market_cap_basic := some 2000000000, RSI := none,
        change := some 0.5 } = false) := by
  have h := (bound_scaling { defaultFilters with marketCapMin := some 10 }
    { symbol := "ASX:CCC", sector := some "Energy", industry := none,
      market_cap_basic := some 2000000000, RSI := none,
      change := some 0.5 } 10 0 2000000000 0).1 rfl rfl
  rw [h]
  norm_num

/-- C3: cascade reset. A single `updateFilter` transition that sets the
sector to a value different from the current one returns criteria whose
sector is the new value and whose industry is reset to "Any". -/
theorem cascade_reset (f : FilterCriteria) (s2 : String) (h : s2 ≠ f.sector) :
    (updateFilter f (.sector s2)).sector = s2 ∧
    (updateFilter f (.sector s2)).industry = "Any" := by
  simp [updateFilter, h]

/-- Concrete instantiation of `cascade_reset`: switching the sector from
"Tech" to "Energy" resets a previously selected industry. -/
theorem cascade_reset_witness :
    ("Energy" : String) ≠ ("Tech" : String) ∧
    (updateFilter { defaultFilters with sector := "Tech", industry := "Software" }
        (.sector "Energy")).sector = "Energy" ∧
    (updateFilter { defaultFilters with sector := "Tech", industry := "Software" }
        (.sector "Energy")).industry = "Any" :=
  ⟨by decide,
    cascade_reset { defaultFilters with sector := "Tech", industry := "Software" }
      "Energy" (by decide)⟩

/-- C6: the rating classifier realises the five half-open bands: scores of
at least 0.5 give the highest label, [0.1, 0.5) the second, [-0.1, 0.1)
neutral, [-0.5, -0.1) the fourth, anything below -0.5 the lowest; a null
score gives no label; the four boundary scores of the claim land in the
stated bands. -/
theorem rating_bands :
    (∀ r : ℚ, (0.5 : ℚ) ≤ r → getRatingLabel (some r) = some .strongBuy) ∧
    (∀ r : ℚ, (0.1 : ℚ) ≤ r → r < (0.5 : ℚ) →
      getRatingLabel (some r) = some .buy) ∧
    (∀ r : ℚ, (-0.1 : ℚ) ≤ r → r < (0.1 : ℚ) →
      getRatingLabel (some r) = some .neutral) ∧
    (∀ r : ℚ, (-0.5 : ℚ) ≤ r → r < (-0.1 : ℚ) →
      getRatingLabel (some r) = some .sell) ∧
    (∀ r : ℚ, r < (-0.5 : ℚ) → getRatingLabel (some r) = some .strongSell) ∧
    getRatingLabel none = none ∧
    getRatingLabel (some (0.5 : ℚ)) = some .strongBuy ∧
    getRatingLabel (some (0.4999 : ℚ)) = some .buy ∧
    getRatingLabel (some (-0.1 : ℚ)) = some .neutral ∧
    getRatingLabel (some (-0.1000001 : ℚ)) = some .sell := by
  have h1 : ∀ r : ℚ, (0.5 : ℚ) ≤ r → getRatingLabel (some r) = some .strongBuy := by
    intro r h; simp only [getRatingLabel]; rw [if_pos h]
  have h2 : ∀ r : ℚ, (0.1 : ℚ) ≤ r → r < (0.5 : ℚ) →
      getRatingLabel (some r) = some .buy := by
    intro r h h'
    simp only [getRatingLabel]
    rw [if_neg (by linarith), if_pos h]
  have h3 : ∀ r : ℚ, (-0.1 : ℚ) ≤ r → r < (0.1 : ℚ) →
      getRatingLabel (some r) = some .neutral := by
    intro r h h'
    simp only [getRatingLabel]
    rw [if_neg (by linarith), if_neg (by linarith), if_pos h]
  have h4 : ∀ r : ℚ, (-0.5 : ℚ) ≤ r → r < (-0.1 : ℚ) →
      getRatingLabel (some r) = some .sell := by
    intro r h h'
    simp only [getRatingLabel]
    rw [if_neg (by linarith), if_neg (by linarith), if_neg (by linarith),
      if_pos h]
  have h5 : ∀ r : ℚ, r < (-0.5 : ℚ) → getRatingLabel (some r) = some .strongSell := by
    intro r h
    simp only [getRatingLabel]
    rw [if_neg (by linarith), if_neg (by linarith), if_neg (by linarith),
      if_neg (by linarith)]
  refine ⟨h1, h2, h3, h4, h5, rfl, h1 _ le_rfl, h2 _ (by norm_num) (by norm_num),
    h3 _ le_rfl (by norm_num), h4 _ (by norm_num) (by norm_num)⟩

/-- Concrete instantiation of `rating_bands`: a score of 0.75 is labelled
with the highest band. -/
theorem rating_bands_witness :
    getRatingLabel (some (0.75 : ℚ)) = some .strongBuy :=
  rating_bands.1 (0.75 : ℚ) (by norm_num)

/-- C7: inverted bounds are applied literally. When a range criterion has
both bounds present with min strictly above max, every record with a
non-null value for that attribute fails that range predicate, so every
record surviving `applyFilters` has a null value for that attribute. -/
theorem inverted_bounds_literal (data : List Stock) (f : FilterCriteria)
    (a b : ℚ) (hab : b < a) :
    (f.rsiMin = some a → f.rsiMax = some b →
      (∀ s : Stock, s.RSI ≠ none → rsiPass f s = false) ∧
      ∀ s ∈ applyFilters data f, s.RSI = none) ∧
    (f.marketCapMin = some a → f.marketCapMax = some b →
      (∀ s : Stock, s.market_cap_basic ≠ none → marketCapPass f s = false) ∧
      ∀ s ∈ applyFilters data f, s.market_cap_basic = none) ∧
    (f.changeMin = some a → f.changeMax = some b →
      (∀ s : Stock, s.change ≠ none → changePass f s = false) ∧
      ∀ s ∈ applyFilters data f, s.change = none) := by
  have hmem : ∀ s ∈ applyFilters data f, matchesStock f s = true := by
    intro s hs
    exact (List.mem_filter.mp hs).2
  refine ⟨fun h1 h2 => ?_, fun h1 h2 => ?_, fun h1 h2 => ?_⟩
  · have hfail : ∀ s : Stock, s.RSI ≠ none → rsiPass f s = false := by
      intro s hne
      cases hv : s.RSI with
      | none => exact absurd hv hne
      | some v =>
          unfold rsiPass rangePass
          rw [h1, h2, hv]
          by_cases hav : a ≤ v
          · have : ¬ v ≤ b := by linarith
            simp [this]
          · simp [hav]
    refine ⟨hfail, fun s hs => ?_⟩
    by_contra hne
    have hmatch := hmem s hs
    rw [matchesStock_eq] at hmatch
    simp only [Bool.and_eq_true] at hmatch
    have := hfail s hne
    rw [hmatch.1.2] at this
    exact Bool.noConfusion this
  · have hb : b * 1000000000 < a * 1000000000 := by
      have : (0 : ℚ) < 1000000000 := by norm_num
      exact (mul_lt_mul_right this).mpr hab
    have hfail : ∀ s : Stock, s.market_cap_basic ≠ none →
        marketCapPass f s = false := by
      intro s hne
      cases hv : s.market_cap_basic with
      | none => exact absurd hv hne
      | some v =>
          unfold marketCapPass rangePass
          rw [h1, h2, hv]
          simp only [Option.map_some]
          by_cases hav : a * 1000000000 ≤ v
          · have : ¬ v ≤ b * 1000000000 := by linarith
            simp [this]
          · simp [hav]
    refine ⟨hfail, fun s hs => ?_⟩
    by_contra hne
    have hmatch := hmem s hs
    rw [matchesStock_eq] at hmatch
    simp only [Bool.and_eq_true] at hmatch
    have := hfail s hne
    rw [hmatch.1.1.2] at this
    exact Bool.noConfusion this
  · have hfail : ∀ s : Stock, s.change ≠ none → changePass f s = false := by
      intro s hne
      cases hv : s.change with
      | none => exact absurd hv hne
      | some v =>
          unfold changePass rangePass
          rw [h1, h2, hv]
          by_cases hav : a ≤ v
          · have : ¬ v ≤ b := by linarith
            simp [this]
          · simp [hav]
    refine ⟨hfail, fun s hs => ?_⟩
    by_contra hne
    have hmatch := hmem s hs
    rw [matchesStock_eq] at hmatch
    simp only [Bool.and_eq_true] at hmatch
    have := hfail s hne
    rw [hmatch.2] at this
    exact Bool.noConfusion this

/-- Concrete instantiation of `inverted_bounds_literal`: with RSI bounds
min 70, max 30, a record with the non-null RSI 20 fails the RSI range
predicate. -/
theorem inverted_bounds_literal_witness :
    rsiPass { defaultFilters with rsiMin := some 70, rsiMax := some 30 }
      { symbol := "ASX:BBB", sector := some "Tech",
        industry := some "Software", market_cap_basic := some 5000000000,
        RSI := some 20, change := some (-1) } = false :=
  ((inverted_bounds_literal []
      { defaultFilters with rsiMin := some 70, rsiMax := some 30 }
      70 30 (by norm_num)).1 rfl rfl).1
    { symbol := "ASX:BBB", sector := some "Tech",
      industry := some "Software", market_cap_basic := some 5000000000,
      RSI := some 20, change := some (-1) } (by decide)

/-! Column registry and visibility model (ColumnToggle.tsx together with
the column definitions module): column ids in source order with their
hide-permission flag; only the pinned ticker column carries
`enableHiding: false`, every other column is hideable by default. -/

/-- One column definition restricted to what the visibility logic reads:
the id and the `enableHiding` flag (default true). -/
structure ColumnSpec where
  id : String
  enableHiding : Bool
  deriving Repr, DecidableEq

/-- The `columns` array of the column definitions module, in source order;
the ticker column is the single entry with `enableHiding: false`. -/
def screenerColumns : List ColumnSpec :=
  [⟨"ticker", false⟩, ⟨"name", true⟩, ⟨"description", true⟩, ⟨"close", true⟩,
   ⟨"open", true⟩, ⟨"high", true⟩, ⟨"low", true⟩, ⟨"change", true⟩,
   ⟨"change_abs", true⟩, ⟨"volume", true⟩, ⟨"average_volume_10d_calc", true⟩,
   ⟨"average_volume_30d_calc", true⟩, ⟨"relative_volume_10d_calc", true⟩,
   ⟨"VWAP", true⟩, ⟨"market_cap_basic", true⟩, ⟨"price_earnings_ttm", true⟩,
   ⟨"price_sales_ratio", true⟩, ⟨"price_book_ratio", true⟩,
   ⟨"dividend_yield_recent", true⟩, ⟨"earnings_per_share_basic_ttm", true⟩,
   ⟨"enterprise_value_fq", true⟩, ⟨"beta_1_year", true⟩,
   ⟨"total_revenue_ttm", true⟩, ⟨"gross_profit_fq", true⟩,
   ⟨"net_income_fq", true⟩, ⟨"total_debt_fq", true⟩, ⟨"Perf_W", true⟩,
   ⟨"Perf_1M", true⟩, ⟨"Perf_3M", true⟩, ⟨"Perf_6M", true⟩, ⟨"Perf_Y", true⟩,
   ⟨"Perf_YTD", true⟩, ⟨"Perf_5Y", true⟩, ⟨"Perf_All", true⟩,
   ⟨"price_52_week_high", true⟩, ⟨"price_52_week_low", true⟩,
   ⟨"High_All", true⟩, ⟨"Low_All", true⟩, ⟨"RSI", true⟩, ⟨"RSI7", true⟩,
   ⟨"Stoch_K", true⟩, ⟨"Stoch_D", true⟩, ⟨"CCI20", true⟩,
   ⟨"MACD_macd", true⟩, ⟨"ADX", true⟩, ⟨"ATR", true⟩, ⟨"Volatility_D", true⟩,
   ⟨"SMA20", true⟩, ⟨"SMA50", true⟩, ⟨"SMA200", true⟩, ⟨"EMA20", true⟩,
   ⟨"EMA50", true⟩, ⟨"EMA200", true⟩, ⟨"BB_upper", true⟩, ⟨"BB_lower", true⟩,
   ⟨"Recommend_All", true⟩, ⟨"Recommend_MA", true⟩, ⟨"Recommend_Other", true⟩,
   ⟨"sector", true⟩, ⟨"industry", true⟩, ⟨"exchange", true⟩]

/-- `defaultVisibleColumns` from the column definitions module. -/
def defaultVisibleColumns : List String :=
  ["ticker", "name", "close", "change", "volume", "market_cap_basic",
   "price_earnings_ttm", "dividend_yield_recent", "RSI", "Recommend_All",
   "sector"]

/-- The ids of the hideable columns, in order: the table's
`getAllColumns().filter(column => column.getCanHide())` used by
ColumnToggle.tsx. -/
def hideableIds : List String :=
  (screenerColumns.filter (fun c => c.enableHiding)).map (fun c => c.id)

/-- Point update of a visibility map. -/
def setVisible (v : String → Bool) (id : String) (val : Bool) :
    String → Bool :=
  fun x => if x = id then val else v x

/-- A single toggle request `toggleVisibility(value)`: it takes effect only
on a hideable column (the checkbox items exist only for columns that can
hide, and the table guards `toggleVisibility` by the hide permission). -/
def toggleColumn (v : String → Bool) (id : String) (val : Bool) :
    String → Bool :=
  if id ∈ hideableIds then setVisible v id val else v

/-- One step of the bulk All / None actions of ColumnToggle.tsx: set a
column unless it is the ticker column. -/
def setAllStep (val : Bool) (v : String → Bool) (id : String) :
    String → Bool :=
  if id ≠ "ticker" then setVisible v id val else v

/-- The "All" action: for every hideable column other than the ticker,
request visibility true. -/
def showAllColumns (v : String → Bool) : String → Bool :=
  hideableIds.foldl (setAllStep true) v

/-- The "None" action: for every hideable column other than the ticker,
request visibility false. -/
def hideAllColumns (v : String → Bool) : String → Bool :=
  hideableIds.foldl (setAllStep false) v

/-- The initial visibility map of DataTable.tsx: each declared column id is
visible exactly when listed in `defaultVisibleColumns`; ids outside the
registry fall back to the table default true. -/
def initialVisibility : String → Bool :=
  fun id =>
    if id ∈ screenerColumns.map (fun c => c.id) then
      decide (id ∈ defaultVisibleColumns)
    else true

/-- The visibility states reachable from the initial map through the three
user actions. -/
inductive ReachableVis : (String → Bool) → Prop where
  | init : ReachableVis initialVisibility
  | toggle (v : String → Bool) (id : String) (val : Bool) :
      ReachableVis v → ReachableVis (toggleColumn v id val)
  | showAll (v : String → Bool) : ReachableVis v → ReachableVis (showAllColumns v)
  | hideAll (v : String → Bool) : ReachableVis v → ReachableVis (hideAllColumns v)

/-- The ticker column is not hideable. -/
lemma ticker_not_hideable : "ticker" ∉ hideableIds := by decide

/-- The hideable ids are pairwise distinct. -/
lemma hideableIds_nodup : hideableIds.Nodup := by decide

/-- A fold of set-unless-ticker steps leaves any id outside the folded list
unchanged. -/
lemma foldl_setAllStep_not_mem (val : Bool) :
    ∀ (l : List String) (v : String → Bool) (x : String), x ∉ l →
      l.foldl (setAllStep val) v x = v x := by
  intro l
  induction l with
  | nil => intro v x _; rfl
  | cons a t ih =>
      intro v x hx
      rw [List.mem_cons, not_or] at hx
      rw [List.foldl_cons, ih _ _ hx.2]
      unfold setAllStep
      split
      · simp [setVisible, hx.1]
      · rfl

/-- A fold of set-unless-ticker steps sets every non-ticker id of a
duplicate-free folded list to the requested value. -/
lemma foldl_setAllStep_mem (val : Bool) :
    ∀ (l : List String) (v : String → Bool) (x : String), x ∈ l →
      x ≠ "ticker" → l.Nodup →
      l.foldl (setAllStep val) v x = val := by
  intro l
  induction l with
  | nil => intro v x hx; exact absurd hx (List.not_mem_nil x)
  | cons a t ih =>
      intro v x hx hxt hnd
      rw [List.nodup_cons] at hnd
      rw [List.foldl_cons]
      rcases List.mem_cons.mp hx with rfl | hmem
      · rw [foldl_setAllStep_not_mem val t _ _ hnd.1]
        simp [setAllStep, setVisible, hxt]
      · exact ih _ _ hmem hxt hnd.2

/-- A fold of set-unless-ticker steps never changes the ticker entry. -/
lemma foldl_setAllStep_ticker (val : Bool) (l : List String)
    (v : String → Bool) :
    l.foldl (setAllStep val) v "ticker" = v "ticker" := by
  induction l generalizing v with
  | nil => rfl
  | cons a t ih =>
      rw [List.foldl_cons, ih]
      rcases eq_or_ne a "ticker" with h | h
      · simp [setAllStep, setVisible, h]
      · simp [setAllStep, setVisible, h, Ne.symm h]

/-- C9: the pinned ticker column is visible in every reachable visibility
state; individual toggle requests on it are ignored; the bulk All / None
actions set every hideable non-ticker column to true / false respectively
while leaving the ticker entry unchanged. -/
theorem ticker_always_visible :
    (∀ v, ReachableVis v → v "ticker" = true) ∧
    (∀ (v : String → Bool) (val : Bool), toggleColumn v "ticker" val = v) ∧
    (∀ (v : String → Bool) (id : String), id ∈ hideableIds →
      showAllColumns v id = true) ∧
    (∀ (v : String → Bool) (id : String), id ∈ hideableIds →
      hideAllColumns v id = false) ∧
    (∀ v : String → Bool, showAllColumns v "ticker" = v "ticker") ∧
    (∀ v : String → Bool, hideAllColumns v "ticker" = v "ticker") := by
  have htoggle : ∀ (v : String → Bool) (val : Bool),
      toggleColumn v "ticker" val = v := by
    intro v val
    unfold toggleColumn
    rw [if_neg ticker_not_hideable]
  have hne : ∀ id ∈ hideableIds, id ≠ "ticker" := by
    intro id hid heq
    exact ticker_not_hideable (heq ▸ hid)
  refine ⟨?_, htoggle, ?_, ?_, ?_, ?_⟩
  · intro v hv
    induction hv with
    | init => decide
    | toggle v id val _ ih =>
        unfold toggleColumn
        split
        · next hid =>
            rcases eq_or_ne id "ticker" with rfl | hne2
            · exact absurd hid ticker_not_hideable
            · simp [setVisible, Ne.symm hne2, ih]
        · exact ih
    | showAll v _ ih => rw [showAllColumns, foldl_setAllStep_ticker]; exact ih
    | hideAll v _ ih => rw [hideAllColumns, foldl_setAllStep_ticker]; exact ih
  · intro v id hid
    exact foldl_setAllStep_mem true hideableIds v id hid (hne id hid)
      hideableIds_nodup
  · intro v id hid
    exact foldl_setAllStep_mem false hideableIds v id hid (hne id hid)
      hideableIds_nodup
  · intro v
    exact foldl_setAllStep_ticker true hideableIds v
  · intro v
    exact foldl_setAllStep_ticker false hideableIds v

/-- Concrete instantiation of `ticker_always_visible`: after hiding
everything from the initial state, the ticker entry is still true. -/
theorem ticker_always_visible_witness :
    hideAllColumns initialVisibility "ticker" = true :=
  ticker_always_visible.1 (hideAllColumns initialVisibility)
    (ReachableVis.hideAll initialVisibility ReachableVis.init)

/-! Sort model. The sort comparator is executed by the table library
(`getSortedRowModel` in DataTable.tsx), whose code is not part of this
repository; the comparator below is therefore modelled from the
specification, section 4.3. -/

/-- Modelled from the spec: the sort order for a numeric attribute.
Section 4.3 prescribes standard numeric ordering with a null value ordered
after every non-null value independent of direction; descending reverses
the order of the non-null values only. The repository itself contains no
comparator (sorting is delegated to the table library). -/
def nullsLastLe (desc : Bool) (a b : Option ℚ) : Bool :=
  match a, b with
  | some x, some y => if desc then decide (y ≤ x) else decide (x ≤ y)
  | some _, none => true
  | none, some _ => false
  | none, none => true

/-- Modelled from the spec: sorting the record list by one numeric
attribute in the given direction with the null-last comparator. -/
def sortByKey (key : Stock → Option ℚ) (desc : Bool) (l : List Stock) :
    List Stock :=
  l.mergeSort (fun a b => nullsLastLe desc (key a) (key b))

/-- The sort-key value of a record known to be non-null. -/
def keyVal (key : Stock → Option ℚ) (s : Stock) : ℚ :=
  (key s).getD 0

/-- The null-last order is transitive. -/
lemma nullsLastLe_trans (desc : Bool) (a b c : Option ℚ)
    (hab : nullsLastLe desc a b = true) (hbc : nullsLastLe desc b c = true) :
    nullsLastLe desc a c = true := by
  cases a <;> cases b <;> cases c <;> cases desc <;>
    simp_all [nullsLastLe] <;> linarith

/-- The null-last order is total. -/
lemma nullsLastLe_total (desc : Bool) (a b : Option ℚ) :
    (nullsLastLe desc a b || nullsLastLe desc b a) = true := by
  cases a <;> cases b <;> cases desc <;> simp [nullsLastLe] <;>
    exact le_total _ _

/-- Sorting produces a list ordered by the null-last comparator. -/
lemma sortByKey_sorted (key : Stock → Option ℚ) (desc : Bool)
    (l : List Stock) :
    (sortByKey key desc l).Pairwise
      (fun a b => nullsLastLe desc (key a) (key b) = true) :=
  @List.sorted_mergeSort Stock
    (fun a b => nullsLastLe desc (key a) (key b))
    (fun _ _ _ hab hbc => nullsLastLe_trans desc _ _ _ hab hbc)
    (fun _ _ => nullsLastLe_total desc _ _) l

/-- Sorting permutes the input. -/
lemma sortByKey_perm (key : Stock → Option ℚ) (desc : Bool) (l : List Stock) :
    List.Perm (sortByKey key desc l) l :=
  List.mergeSort_perm l _

/-- In a sorted list, once a null key appears every later key is null:
the null-valued records form the tail in either direction. -/
lemma sortByKey_nulls_last (key : Stock → Option ℚ) (desc : Bool)
    (l : List Stock) :
    (sortByKey key desc l).Pairwise
      (fun a b => key a = none → key b = none) := by
  refine (sortByKey_sorted key desc l).imp ?_
  intro a b h hna
  cases hb : key b with
  | none => rfl
  | some y => rw [hna, hb] at h; cases desc <;> simp [nullsLastLe] at h

/-- The non-null key values of a list are the key values of its records
with non-null keys, in order. -/
lemma filterMap_key_eq (key : Stock → Option ℚ) (l : List Stock) :
    l.filterMap key =
      (l.filter (fun s => (key s).isSome)).map (keyVal key) := by
  induction l with
  | nil => rfl
  | cons a t ih =>
      cases h : key a <;>
        simp [List.filterMap_cons, List.filter_cons, h, ih, keyVal]

/-- With pairwise-distinct non-null key values, the non-null records of the
descending sort are exactly the reverse of the non-null records of the
ascending sort. -/
lemma sortByKey_reverse (key : Stock → Option ℚ) (l : List Stock)
    (hdist : (l.filterMap key).Pairwise (fun x y => x ≠ y)) :
    (sortByKey key true l).filter (fun s => (key s).isSome) =
      ((sortByKey key false l).filter (fun s => (key s).isSome)).reverse := by
  have hsymm : ∀ {a b : Stock}, keyVal key a ≠ keyVal key b →
      keyVal key b ≠ keyVal key a := fun h h2 => h h2.symm
  have hpermA : List.Perm
      ((sortByKey key false l).filter (fun s => (key s).isSome))
      (l.filter (fun s => (key s).isSome)) :=
    (sortByKey_perm key false l).filter _
  have hpermD : List.Perm
      ((sortByKey key true l).filter (fun s => (key s).isSome))
      (l.filter (fun s => (key s).isSome)) :=
    (sortByKey_perm key true l).filter _
  have hdl : (l.filter (fun s => (key s).isSome)).Pairwise
      (fun a b => keyVal key a ≠ keyVal key b) := by
    rw [filterMap_key_eq key l] at hdist
    exact List.pairwise_map.mp hdist
  have hmemsome : ∀ {m : List Stock} {s : Stock},
      s ∈ m.filter (fun s => (key s).isSome) → ∃ x, key s = some x := by
    intro m s hs
    have := (List.mem_filter.mp hs).2
    exact Option.isSome_iff_exists.mp this
  have hA : ((sortByKey key false l).filter (fun s => (key s).isSome)).Pairwise
      (fun a b => keyVal key a < keyVal key b) := by
    have hsorted := (sortByKey_sorted key false l).filter
      (fun s => (key s).isSome)
    have hdA := (List.Perm.pairwise_iff hsymm hpermA).mpr hdl
    refine (hsorted.and hdA).imp_of_mem ?_
    intro a b ha hb hab
    obtain ⟨x, hx⟩ := hmemsome ha
    obtain ⟨y, hy⟩ := hmemsome hb
    have hle := hab.1
    rw [hx, hy] at hle
    simp [nullsLastLe] at hle
    have hne := hab.2
    unfold keyVal at hne ⊢
    rw [hx, hy] at hne ⊢
    simp only [Option.getD_some] at hne ⊢
    exact lt_of_le_of_ne hle hne
  have hD : ((sortByKey key true l).filter (fun s => (key s).isSome)).Pairwise
      (fun a b => keyVal key b < keyVal key a) := by
    have hsorted := (sortByKey_sorted key true l).filter
      (fun s => (key s).isSome)
    have hdD := (List.Perm.pairwise_iff hsymm hpermD).mpr hdl
    refine (hsorted.and hdD).imp_of_mem ?_
    intro a b ha hb hab
    obtain ⟨x, hx⟩ := hmemsome ha
    obtain ⟨y, hy⟩ := hmemsome hb
    have hle := hab.1
    rw [hx, hy] at hle
    simp [nullsLastLe] at hle
    have hne := hab.2
    unfold keyVal at hne ⊢
    rw [hx, hy] at hne ⊢
    simp only [Option.getD_some] at hne ⊢
    exact lt_of_le_of_ne hle (fun h => hne h.symm)
  have hDrev : (((sortByKey key true l).filter
      (fun s => (key s).isSome)).reverse).Pairwise
      (fun a b => keyVal key a < keyVal key b) :=
    List.pairwise_reverse.mpr hD
  have hperm2 : List.Perm
      (((sortByKey key true l).filter (fun s => (key s).isSome)).reverse)
      ((sortByKey key false l).filter (fun s => (key s).isSome)) :=
    (List.reverse_perm _).trans (hpermD.trans hpermA.symm)
  haveI : IsAntisymm Stock (fun a b => keyVal key a < keyVal key b) :=
    ⟨fun a b h1 h2 => absurd (lt_trans h1 h2) (lt_irrefl _)⟩
  have heq := List.eq_of_perm_of_sorted hperm2 hDrev hA
  rw [← heq, List.reverse_reverse]

/-- Evaluation of a stable two-element merge sort: the pair is kept when
the comparator accepts it and swapped otherwise. -/
lemma mergeSort_pair {α : Type} (le : α → α → Bool) (a b : α) :
    List.mergeSort [a, b] le = if le a b then [a, b] else [b, a] := by
  rw [List.mergeSort]
  simp [List.merge]

/-- The non-null records of the ascending sort carry ascending key
values. -/
lemma sortByKey_filter_sorted_asc (key : Stock → Option ℚ) (l : List Stock) :
    ((sortByKey key false l).filter (fun s => (key s).isSome)).Pairwise
      (fun a b => keyVal key a ≤ keyVal key b) := by
  have hsorted := (sortByKey_sorted key false l).filter
    (fun s => (key s).isSome)
  refine hsorted.imp_of_mem ?_
  intro a b ha hb hab
  obtain ⟨x, hx⟩ := Option.isSome_iff_exists.mp (List.mem_filter.mp ha).2
  obtain ⟨y, hy⟩ := Option.isSome_iff_exists.mp (List.mem_filter.mp hb).2
  rw [hx, hy] at hab
  simp [nullsLastLe] at hab
  unfold keyVal
  rw [hx, hy]
  simp only [Option.getD_some]
  exact hab

/-- The non-null records of the descending sort carry descending key
values. -/
lemma sortByKey_filter_sorted_desc (key : Stock → Option ℚ) (l : List Stock) :
    ((sortByKey key true l).filter (fun s => (key s).isSome)).Pairwise
      (fun a b => keyVal key b ≤ keyVal key a) := by
  have hsorted := (sortByKey_sorted key true l).filter
    (fun s => (key s).isSome)
  refine hsorted.imp_of_mem ?_
  intro a b ha hb hab
  obtain ⟨x, hx⟩ := Option.isSome_iff_exists.mp (List.mem_filter.mp ha).2
  obtain ⟨y, hy⟩ := Option.isSome_iff_exists.mp (List.mem_filter.mp hb).2
  rw [hx, hy] at hab
  simp [nullsLastLe] at hab
  unfold keyVal
  rw [hx, hy]
  simp only [Option.getD_some]
  exact hab

/-- Value-level reversal, with no side condition: the sequence of non-null
key values produced by the descending sort is exactly the reverse of the
one produced by the ascending sort, ties included (sorted value sequences
are unique). -/
lemma sortByKey_filterMap_reverse (key : Stock → Option ℚ) (l : List Stock) :
    (sortByKey key true l).filterMap key =
      ((sortByKey key false l).filterMap key).reverse := by
  rw [filterMap_key_eq key (sortByKey key true l),
    filterMap_key_eq key (sortByKey key false l), ← List.map_reverse]
  have h1 : List.Perm
      ((sortByKey key true l).filter (fun s => (key s).isSome))
      ((sortByKey key false l).filter (fun s => (key s).isSome)) :=
    ((sortByKey_perm key true l).filter _).trans
      ((sortByKey_perm key false l).filter _).symm
  have h2 : List.Perm
      ((sortByKey key false l).filter (fun s => (key s).isSome))
      (((sortByKey key false l).filter (fun s => (key s).isSome)).reverse) :=
    (List.reverse_perm _).symm
  have hperm : List.Perm
      (((sortByKey key true l).filter (fun s => (key s).isSome)).map
        (keyVal key))
      ((((sortByKey key false l).filter
        (fun s => (key s).isSome)).reverse).map (keyVal key)) :=
    (h1.trans h2).map (keyVal key)
  have hsD : (((sortByKey key true l).filter
      (fun s => (key s).isSome)).map (keyVal key)).Pairwise
      (fun x y : ℚ => y ≤ x) :=
    List.pairwise_map.mpr (sortByKey_filter_sorted_desc key l)
  have hsArev : ((((sortByKey key false l).filter
      (fun s => (key s).isSome)).reverse).map (keyVal key)).Pairwise
      (fun x y : ℚ => y ≤ x) :=
    List.pairwise_map.mpr
      (List.pairwise_reverse.mpr (sortByKey_filter_sorted_asc key l))
  haveI : IsAntisymm ℚ (fun x y : ℚ => y ≤ x) :=
    ⟨fun a b h1 h2 => le_antisymm h2 h1⟩
  exact List.eq_of_perm_of_sorted hperm hsD hsArev

/-- C2, counterexample: two records tied on the sort attribute (both
market caps equal 1) keep their input order under the stable sort in both
directions, so the descending non-null subsequence is not the reverse of
the ascending one — the claimed record-level reversal fails for every
record list only as long as there are no ties. -/
theorem sort_reversal_tie_counterexample :
    ¬ ((sortByKey Stock.market_cap_basic true
        [{ symbol := "ASX:AAA", sector := none, industry := none,
           market_cap_basic := some 1, RSI := none, change := none },
         { symbol := "ASX:BBB", sector := none, industry := none,
           market_cap_basic := some 1, RSI := none, change := none }]).filter
        (fun s => (Stock.market_cap_basic s).isSome) =
      ((sortByKey Stock.market_cap_basic false
        [{ symbol := "ASX:AAA", sector := none, industry := none,
           market_cap_basic := some 1, RSI := none, change := none },
         { symbol := "ASX:BBB", sector := none, industry := none,
           market_cap_basic := some 1, RSI := none, change := none }]).filter
        (fun s => (Stock.market_cap_basic s).isSome)).reverse) := by
  have hT : sortByKey Stock.market_cap_basic true
      [{ symbol := "ASX:AAA", sector := none, industry := none,
         market_cap_basic := some 1, RSI := none, change := none },
       { symbol := "ASX:BBB", sector := none, industry := none,
         market_cap_basic := some 1, RSI := none, change := none }] =
      [{ symbol := "ASX:AAA", sector := none, industry := none,
         market_cap_basic := some 1, RSI := none, change := none },
       { symbol := "ASX:BBB", sector := none, industry := none,
         market_cap_basic := some 1, RSI := none, change := none }] := by
    rw [sortByKey, mergeSort_pair]
    norm_num [nullsLastLe]
  have hF : sortByKey Stock.market_cap_basic false
      [{ symbol := "ASX:AAA", sector := none, industry := none,
         market_cap_basic := some 1, RSI := none, change := none },
       { symbol := "ASX:BBB", sector := none, industry := none,
         market_cap_basic := some 1, RSI := none, change := none }] =
      [{ symbol := "ASX:AAA", sector := none, industry := none,
         market_cap_basic := some 1, RSI := none, change := none },
       { symbol := "ASX:BBB", sector := none, industry := none,
         market_cap_basic := some 1, RSI := none, change := none }] := by
    rw [sortByKey, mergeSort_pair]
    norm_num [nullsLastLe]
  rw [hT, hF]
  decide

/-- C2 (amended; modelled from the spec, section 4.3; the comparator lives
in the table library, outside the repository): sorting any record list by
a numeric attribute places every null-valued record after all non-null
records in both directions and permutes the input; the sequence of
non-null attribute values of the descending sort is exactly the reverse of
that of the ascending sort; and the record-level descending order is the
reverse of the ascending order of the non-null subsequence whenever the
non-null values are pairwise distinct (with tied values the stable sort
keeps input order in both directions, so the unrestricted record-level
reversal fails). -/
theorem sort_nulls_last_and_reversal_amended (key : Stock → Option ℚ)
    (l : List Stock) :
    (sortByKey key false l).Pairwise
      (fun a b => key a = none → key b = none) ∧
    (sortByKey key true l).Pairwise
      (fun a b => key a = none → key b = none) ∧
    List.Perm (sortByKey key false l) l ∧
    List.Perm (sortByKey key true l) l ∧
    (sortByKey key true l).filterMap key =
      ((sortByKey key false l).filterMap key).reverse ∧
    ((l.filterMap key).Pairwise (fun x y => x ≠ y) →
      (sortByKey key true l).filter (fun s => (key s).isSome) =
        ((sortByKey key false l).filter (fun s => (key s).isSome)).reverse) :=
  ⟨sortByKey_nulls_last key false l, sortByKey_nulls_last key true l,
    sortByKey_perm key false l, sortByKey_perm key true l,
    sortByKey_filterMap_reverse key l,
    fun hdist => sortByKey_reverse key l hdist⟩

/-- Concrete instantiation of `sort_nulls_last_and_reversal_amended` at the
three-record scenario of the spec (market caps null, 5e9, 2e9, which are
pairwise distinct where non-null). -/
theorem sort_nulls_last_and_reversal_amended_witness :
    (sortByKey Stock.market_cap_basic true
        [{ symbol := "ASX:AAA", sector := some "Tech",
           industry := some "Software", market_cap_basic := none,
           RSI := some 75, change := some 3 },
         { symbol := "ASX:BBB", sector := some "Tech",
           industry := some "Software",
           market_cap_basic := some 5000000000,
           RSI := some 20, change := some (-1) },
         { symbol := "ASX:CCC", sector := some "Energy", industry := none,
           market_cap_basic := some 2000000000, RSI := none,
           change := some 0.5 }]).filter
        (fun s => (Stock.market_cap_basic s).isSome) =
      ((sortByKey Stock.market_cap_basic false
        [{ symbol := "ASX:AAA", sector := some "Tech",
           industry := some "Software", market_cap_basic := none,
           RSI := some 75, change := some 3 },
         { symbol := "ASX:BBB", sector := some "Tech",
           industry := some "Software",
           market_cap_basic := some 5000000000,
           RSI := some 20, change := some (-1) },
         { symbol := "ASX:CCC", sector := some "Energy", industry := none,
           market_cap_basic := some 2000000000, RSI := none,
           change := some 0.5 }]).filter
        (fun s => (Stock.market_cap_basic s).isSome)).reverse :=
  (sort_nulls_last_and_reversal_amended Stock.market_cap_basic _).2.2.2.2.2
    (by decide)

/-! Pagination model. The pagination row model and `getPageCount` are
executed by the table library (DataTable.tsx delegates to
`getPaginationRowModel`), whose code is not part of this repository; the
deriver below is therefore modelled from the specification, section 4.4. -/

/-- Modelled from the spec: the page count is the ceiling of N / S, and at
least 1 even for an empty sequence (section 4.4). The repository itself
contains no pagination arithmetic. -/
def pageCount (N S : ℕ) : ℕ :=
  max 1 ((N + S - 1) / S)

/-- Modelled from the spec: the requested page index is clamped into
[0, pageCount - 1]. -/
def clampedPageIndex (N S P : ℕ) : ℕ :=
  min P (pageCount N S - 1)

/-- Modelled from the spec: the visible slice for page size S and requested
page index P is the S-sized window starting at the clamped index. -/
def paginate (l : List Stock) (S P : ℕ) : List Stock :=
  (l.drop (clampedPageIndex l.length S P * S)).take S

/-- The ceiling division used by `pageCount` bounds the length from above:
the pages cover the whole sequence. -/
lemma length_le_pageCount_mul (N S : ℕ) (hS : 0 < S) :
    N ≤ pageCount N S * S := by
  unfold pageCount
  have hdm := Nat.div_add_mod (N + S - 1) S
  have hr : (N + S - 1) % S < S := Nat.mod_lt _ hS
  rcases Nat.eq_zero_or_pos ((N + S - 1) / S) with hq | hq
  · rw [hq] at hdm
    have hN : N = 0 := by omega
    rw [hN]
    exact Nat.zero_le _
  · rw [Nat.max_eq_right hq, Nat.mul_comm]
    omega

/-- The page count is minimal: any positive number of pages of size S that
covers the sequence is at least `pageCount`. -/
lemma pageCount_le (N S k : ℕ) (hS : 0 < S) (hk : 1 ≤ k)
    (hcov : N ≤ k * S) : pageCount N S ≤ k := by
  unfold pageCount
  refine Nat.max_le.mpr ⟨hk, ?_⟩
  rw [Nat.div_le_iff_le_mul_add_pred hS]
  have : k * S = S * k := Nat.mul_comm k S
  omega

/-- When the sequence is non-empty, the clamped start offset lies strictly
inside it. -/
lemma clamped_start_lt (N S P : ℕ) (hS : 0 < S) (hN : 0 < N) :
    clampedPageIndex N S P * S < N := by
  have hq1 : 1 ≤ (N + S - 1) / S := by
    rw [Nat.one_le_div_iff hS]
    omega
  have hpc : pageCount N S = (N + S - 1) / S := Nat.max_eq_right hq1
  have hc : clampedPageIndex N S P ≤ (N + S - 1) / S - 1 := by
    rw [clampedPageIndex, hpc]
    exact Nat.min_le_right _ _
  have hcs : clampedPageIndex N S P * S ≤ ((N + S - 1) / S - 1) * S :=
    Nat.mul_le_mul_right S hc
  have hsub : ((N + S - 1) / S - 1) * S = (N + S - 1) / S * S - S := by
    rw [Nat.sub_mul, Nat.one_mul]
  have hdm := Nat.div_add_mod (N + S - 1) S
  have hr : (N + S - 1) % S < S := Nat.mod_lt _ hS
  have hcomm : (N + S - 1) / S * S = S * ((N + S - 1) / S) :=
    Nat.mul_comm _ _
  rw [hsub, hcomm] at hcs
  omega

/-- C8 (modelled from the spec, section 4.4; the pagination row model lives
in the table library, outside the repository): for any sequence and any
page size in {25, 50, 100}, the page count is the ceiling of N / S and at
least 1 even when N = 0, the effective index is the requested index clamped
into [0, pageCount - 1], the visible rows are the slice
[c·S, min((c+1)·S, N)) at the clamped index c, and the slice is non-empty
whenever the sequence is. -/
theorem pagination_slice (l : List Stock) (S P : ℕ)
    (hS : S = 25 ∨ S = 50 ∨ S = 100) :
    1 ≤ pageCount l.length S ∧
    (l.length = 0 → pageCount l.length S = 1) ∧
    l.length ≤ pageCount l.length S * S ∧
    (∀ k, 1 ≤ k → l.length ≤ k * S → pageCount l.length S ≤ k) ∧
    clampedPageIndex l.length S P =
      max 0 (min P (pageCount l.length S - 1)) ∧
    (P ≤ pageCount l.length S - 1 → clampedPageIndex l.length S P = P) ∧
    paginate l S P =
      (l.take (clampedPageIndex l.length S P * S + S)).drop
        (clampedPageIndex l.length S P * S) ∧
    (paginate l S P).length =
      min S (l.length - clampedPageIndex l.length S P * S) ∧
    (0 < l.length → paginate l S P ≠ []) := by
  have hSpos : 0 < S := by rcases hS with h | h | h <;> rw [h] <;> norm_num
  refine ⟨Nat.le_max_left _ _, ?_, length_le_pageCount_mul l.length S hSpos,
    fun k hk hcov => pageCount_le l.length S k hSpos hk hcov, ?_, ?_, ?_, ?_, ?_⟩
  · intro h0
    unfold pageCount
    rw [h0]
    have : (0 + S - 1) / S = 0 := Nat.div_eq_of_lt (by omega)
    rw [this]
    rfl
  · rw [Nat.zero_max]
    rfl
  · intro hP
    exact Nat.min_eq_left hP
  · rw [paginate, List.take_drop]
  · rw [paginate, List.length_take, List.length_drop]
  · intro hN
    refine List.ne_nil_of_length_pos ?_
    rw [paginate, List.length_take, List.length_drop]
    exact lt_min hSpos
      (Nat.sub_pos_of_lt (clamped_start_lt l.length S P hSpos hN))

/-- Concrete instantiation of `pagination_slice`: a one-record list paged
with size 25 at a requested index far past the end still shows a non-empty
slice. -/
theorem pagination_slice_witness :
    paginate
      [{ symbol := "ASX:AAA", sector := some "Tech",
         industry := some "Software", market_cap_basic := none,
         RSI := some 75, change := some 3 }] 25 7 ≠ [] :=
  (pagination_slice
      [{ symbol := "ASX:AAA", sector := some "Tech",
         industry := some "Software", market_cap_basic := none,
         RSI := some 75, change := some 3 }] 25 7
      (Or.inl rfl)).2.2.2.2.2.2.2.2 (by decide)

end ASX
